import Mathlib

/-!
Verification of the apus memory-management toolkit: a shallow embedding of
free_list.hpp, memory_arena.hpp, paged_memory_arena.hpp, typed_memory_arena.hpp
and slot_map.hpp, followed by theorems settling the specification claims.

Modelling conventions:
* machine integers are Nat with explicit masking/mod where the code masks
  (uint32 handle fields, the static_cast<uint32_t> truncation); size_t counters
  are Nat (their overflow needs 2^64 operations);
* a pointer into an arena page is a byte/element offset from an abstract page
  base; for the typed arena the address pages_[i / P].base + i % P of slot i is
  identified with the flat number (i / P) * P + i % P, which equals i;
* fallible C++ code (throws, nullptr) returns Except/Option;
* the two unbounded while loops (add_impl's version sync, the iterator's
  advance_to_valid) are written with an explicit fuel that dominates the number
  of iterations the C++ loop performs on the states we reason about.
-/

namespace apus

variable {T : Type}

/-- Error taxonomy of the library: AllocationFailed (bad_alloc from an arena),
IndexOutOfRange (typed-arena bounds check), InvalidHandle (slot-map validation). -/
inductive apus_error where
  | allocationFailed
  | indexOutOfRange
  | invalidHandle
  deriving DecidableEq, Repr

instance exceptDecEq {E A : Type} [DecidableEq E] [DecidableEq A] :
    DecidableEq (Except E A) := fun x y =>
  match x, y with
  | .ok a, .ok b =>
    if h : a = b then .isTrue (by rw [h])
    else .isFalse (by intro hc; cases hc; exact h rfl)
  | .ok _, .error _ => .isFalse (by intro hc; cases hc)
  | .error _, .ok _ => .isFalse (by intro hc; cases hc)
  | .error e, .error f =>
    if h : e = f then .isTrue (by rw [h])
    else .isFalse (by intro hc; cases hc; exact h rfl)

/-- whether an Except result is a success (no exception escaped). -/
def exceptOk {E A : Type} : Except E A → Bool
  | .ok _ => true
  | .error _ => false

/-- free_list<T> of free_list.hpp: a std::vector used as a LIFO stack through
push_back/pop_back; the back of the list is the top of the stack. -/
structure free_list (T : Type) where
  objects : List T
  deriving DecidableEq, Repr

/-- push_back appends to the back of the internal vector. -/
def free_list.push_back (l : free_list T) (obj : T) : free_list T :=
  ⟨l.objects ++ [obj]⟩

/-- empty tests whether the internal vector is empty. -/
def free_list.empty (l : free_list T) : Bool :=
  l.objects.isEmpty

/-- pop_back returns the last object and the shrunk list; it throws
std::out_of_range when the free list is empty. -/
def free_list.pop_back (l : free_list T) : Except apus_error (T × free_list T) :=
  match l.objects.getLast? with
  | none => .error .indexOutOfRange
  | some obj => .ok (obj, ⟨l.objects.dropLast⟩)

/-- size of the free list. -/
def free_list.size (l : free_list T) : Nat :=
  l.objects.length

/-- alignUp rounds an offset up to the next multiple of align, as
monotonic_buffer_resource aligns its current pointer before serving a request. -/
def alignUp (off align : Nat) : Nat :=
  (off + align - 1) / align * align

/-- memory_arena<SizeInBytes> of memory_arena.hpp: a fixed byte buffer driven by a
std::pmr::monotonic_buffer_resource with a null upstream.  The state is the bump
cursor; returned pointers are byte offsets from the buffer base. -/
structure memory_arena where
  cursor : Nat
  deriving DecidableEq, Repr

/-- a freshly constructed memory_arena: cursor at the start of the buffer. -/
def memory_arena.init : memory_arena := ⟨0⟩

/-- allocate(bytes, alignment): align the cursor, serve the request from the buffer
if it fits; with the null upstream an allocation that does not fit throws
std::bad_alloc. -/
def memory_arena.allocate (m : memory_arena) (SizeInBytes bytes align : Nat) :
    Except apus_error (Nat × memory_arena) :=
  if alignUp m.cursor align + bytes ≤ SizeInBytes then
    .ok (alignUp m.cursor align, ⟨alignUp m.cursor align + bytes⟩)
  else .error .allocationFailed

/-- reset(): release() rewinds the resource to the start of the initial buffer. -/
def memory_arena.reset (_ : memory_arena) : memory_arena := ⟨0⟩

/-- get_base_address(): the start of the backing buffer, offset 0. -/
def memory_arena.get_base_address (_ : memory_arena) : Nat := 0

/-- paged_memory_arena<PageSizeInBytes> of paged_memory_arena.hpp: an ordered
sequence of memory_arena pages, one page present from construction. -/
structure paged_memory_arena where
  pages : List memory_arena
  deriving DecidableEq, Repr

/-- a freshly constructed paged_memory_arena starts with one page. -/
def paged_memory_arena.init : paged_memory_arena := ⟨[memory_arena.init]⟩

/-- allocate(bytes, alignment): oversized requests (bytes > PageSizeInBytes) return
nullptr (modelled as ok none); otherwise try the last page and, on its bad_alloc,
emplace a new page and retry there.  A returned pointer is a
(page number, offset within page) pair. -/
def paged_memory_arena.allocate (p : paged_memory_arena)
    (PageSizeInBytes bytes align : Nat) :
    Except apus_error (Option (Nat × Nat)) × paged_memory_arena :=
  if PageSizeInBytes < bytes then (.ok none, p)
  else
    match p.pages.getLast? with
    | none => (.error .allocationFailed, p)
    | some back =>
      match back.allocate PageSizeInBytes bytes align with
      | .ok (off, pg) =>
        (.ok (some (p.pages.length - 1, off)), ⟨p.pages.dropLast ++ [pg]⟩)
      | .error _ =>
        match memory_arena.init.allocate PageSizeInBytes bytes align with
        | .ok (off, pg) => (.ok (some (p.pages.length, off)), ⟨p.pages ++ [pg]⟩)
        | .error e => (.error e, ⟨p.pages ++ [memory_arena.init]⟩)

/-- reset(): erase every page after the first, then reset the first page. -/
def paged_memory_arena.reset (p : paged_memory_arena) : paged_memory_arena :=
  match p.pages with
  | [] => p
  | first :: _ => ⟨[first.reset]⟩

/-- n successive allocate(s, 1) calls on a paged arena. -/
def paged_memory_arena.alloc_many (p : paged_memory_arena) (C s : Nat) :
    Nat → paged_memory_arena
  | 0 => p
  | n + 1 => ((p.alloc_many C s n).allocate C s 1).2

/-- allocation_result of typed_memory_arena: the slot pointer (as a flat address,
page_idx * PageSizeInElems + elem_idx_in_page) and the global index. -/
structure allocation_result where
  ptr : Nat
  index : Nat
  deriving DecidableEq, Repr

/-- typed_memory_arena<T, PageSizeInElems> of typed_memory_arena.hpp: element-sized
pages, a freelist of recycled indices, and the watermark next_global_index_.
mem holds the bytes of the element slots, keyed by slot address; the address
pages_[i / P].base + (i % P) of global index i is identified with the number
(i / P) * P + (i % P), which equals i (Nat.div_add_mod), so addresses and global
indices coincide.  The arena itself never reads or writes mem (it only hands out
addresses); writes happen through the returned pointers. -/
structure typed_memory_arena (T : Type) where
  num_pages : Nat
  freelist : free_list Nat
  next_global_index : Nat
  mem : Nat → Option T

/-- a freshly constructed typed_memory_arena: no pages, empty freelist, watermark 0,
no slot constructed. -/
def typed_memory_arena.init (T : Type) : typed_memory_arena T :=
  ⟨0, ⟨[]⟩, 0, fun _ => none⟩

/-- allocate() of typed_memory_arena: reuse the most recent freelist index if any,
otherwise issue the watermark index, emplacing a new page when the watermark
crosses into it. -/
def typed_memory_arena.allocate (a : typed_memory_arena T) (P : Nat) :
    allocation_result × typed_memory_arena T :=
  if a.freelist.empty then
    -- no free slots in freelist, allocate a new one
    let allocated_index := a.next_global_index
    let current_page_idx := allocated_index / P
    let current_elem_idx := allocated_index % P
    let pages :=
      if a.num_pages ≤ current_page_idx then a.num_pages + 1 else a.num_pages
    (⟨current_page_idx * P + current_elem_idx, allocated_index⟩,
      { a with num_pages := pages, next_global_index := allocated_index + 1 })
  else
    -- try to reuse an index from the freelist
    match a.freelist.pop_back with
    | .ok (index, fl) =>
      let page_idx := index / P
      let elem_idx_in_page := index % P
      (⟨page_idx * P + elem_idx_in_page, index⟩, { a with freelist := fl })
    | .error _ =>
      -- unreachable: pop_back on a nonempty freelist cannot fail
      (⟨0, 0⟩, a)

/-- deallocate(index): push the index onto the freelist; no destruction, no bounds
validation, nothing else changes. -/
def typed_memory_arena.deallocate (a : typed_memory_arena T) (index : Nat) :
    typed_memory_arena T :=
  { a with freelist := a.freelist.push_back index }

/-- get_address(index): page/offset arithmetic with no validity check. -/
def typed_memory_arena.get_address (_ : typed_memory_arena T) (P index : Nat) : Nat :=
  index / P * P + index % P

/-- bounds-checked access (named at_checked because at is a Lean keyword): throws
IndexOutOfRange when the index is at or beyond the watermark, otherwise
dereferences get_address(index). -/
def typed_memory_arena.at_checked (a : typed_memory_arena T) (P index : Nat) :
    Except apus_error (Option T) :=
  if a.next_global_index ≤ index then .error .indexOutOfRange
  else .ok (a.mem (a.get_address P index))

/-- size(): the watermark, i.e. the total number of indices ever issued. -/
def typed_memory_arena.size (a : typed_memory_arena T) : Nat :=
  a.next_global_index

/-- store a value through a slot address (placement new or assignment through the
pointer returned by allocate/get_address). -/
def typed_memory_arena.write (a : typed_memory_arena T) (addr : Nat) (val : T) :
    typed_memory_arena T :=
  { a with mem := fun j => if j = addr then some val else a.mem j }

/-- run the destructor of the object held in a slot (the slot's storage remains). -/
def typed_memory_arena.destroy (a : typed_memory_arena T) (addr : Nat) :
    typed_memory_arena T :=
  { a with mem := fun j => if j = addr then none else a.mem j }

/-- DEAD_BIT of slot_map.hpp: the top bit of a 32-bit version marks a dead slot. -/
def DEAD_BIT : Nat := 0x80000000

/-- VERSION_MASK of slot_map.hpp: the low 31 bits of a version. -/
def VERSION_MASK : Nat := 0x7FFFFFFF

/-- slot_map_handle<T>: a uint32 index into the storage arena and a uint32 version
for validation.  Both fields are kept below 2^32 by the operations that build
handles. -/
structure slot_map_handle where
  index : Nat
  version : Nat
  deriving DecidableEq, Repr

/-- slot_map<T, Deleter, PageSize> of slot_map.hpp: a storage arena for the
elements, a parallel versions arena for the per-slot generation counters, and the
count of currently live elements.  PageSize is passed to each operation. -/
structure slot_map (T : Type) where
  storage_arena : typed_memory_arena T
  versions_arena : typed_memory_arena Nat
  current_size : Nat

/-- a default-constructed slot_map: both arenas fresh, no live element. -/
def slot_map.init (T : Type) : slot_map T :=
  ⟨typed_memory_arena.init T, typed_memory_arena.init Nat, 0⟩

/-- read versions_arena_[i]: dereference get_address(i).  getD 0 stands for the
bytes of a never-written slot; every slot below the watermark is zero-filled by
add_impl before its first read. -/
def slot_map.readV (m : slot_map T) (P i : Nat) : Nat :=
  (m.versions_arena.mem (m.versions_arena.get_address P i)).getD 0

/-- the version-table sync loop of add_impl:
while (versions_arena_.size() < storage_arena_.size())
\x7b versions_arena_.allocate(); versions_arena_[versions_arena_.size() - 1] = 0; \x7d
written with explicit fuel.  Each iteration of the C++ loop allocates from a
versions arena whose freelist is empty (slot_map never deallocates from it), so
the loop body always advances size() by one and fuel = target dominates the
iteration count. -/
def slot_map.syncVersions (P : Nat) :
    Nat → typed_memory_arena Nat → Nat → typed_memory_arena Nat
  | 0, v, _ => v
  | fuel + 1, v, target =>
    if v.size < target then
      let v1 := (v.allocate P).2
      let v2 := v1.write (v1.get_address P (v1.size - 1)) 0
      slot_map.syncVersions P fuel v2 target
    else v

/-- add_impl of slot_map.hpp: allocate a storage slot, lazily extend the versions
arena to match, bump the slot's version with the dead bit cleared, construct the
value into the slot, and return the handle.  The allocation index is truncated to
uint32 by static_cast. -/
def slot_map.add (m : slot_map T) (P : Nat) (obj : T) : slot_map_handle × slot_map T :=
  let res := (m.storage_arena.allocate P).1
  let st := (m.storage_arena.allocate P).2
  let index := res.index % 2 ^ 32
  let vs := slot_map.syncVersions P st.size m.versions_arena st.size
  let version := (vs.mem (vs.get_address P index)).getD 0
  let next_version := (version &&& VERSION_MASK) + 1
  let vs2 := vs.write (vs.get_address P index) next_version
  let st2 := st.write res.ptr obj
  (⟨index, next_version⟩,
    { storage_arena := st2, versions_arena := vs2,
      current_size := m.current_size + 1 })

/-- remove of slot_map.hpp: validate the handle (bounds, then exact version match),
destruct the stored value, set the dead bit, recycle the index, and decrement the
live count.  Both failure branches throw std::out_of_range (InvalidHandle). -/
def slot_map.remove (m : slot_map T) (P : Nat) (h : slot_map_handle) :
    Except apus_error (slot_map T) :=
  if m.storage_arena.size ≤ h.index then .error .invalidHandle
  else
    let version := m.readV P h.index
    if version ≠ h.version then .error .invalidHandle
    else
      .ok { storage_arena :=
              (m.storage_arena.destroy
                (m.storage_arena.get_address P h.index)).deallocate h.index,
            versions_arena :=
              m.versions_arena.write
                (m.versions_arena.get_address P h.index) (version ||| DEAD_BIT),
            current_size := m.current_size - 1 }

/-- at of slot_map.hpp (named at_checked because at is a Lean keyword): validated
access; returns the contents of the slot the handle points at. -/
def slot_map.at_checked (m : slot_map T) (P : Nat) (h : slot_map_handle) :
    Except apus_error (Option T) :=
  if m.storage_arena.size ≤ h.index ∨ m.readV P h.index ≠ h.version then
    .error .invalidHandle
  else .ok (m.storage_arena.mem (m.storage_arena.get_address P h.index))

/-- find of slot_map.hpp: same validity check as at, but nullptr (none) instead of
throwing; on success the returned pointer's target is exposed. -/
def slot_map.find (m : slot_map T) (P : Nat) (h : slot_map_handle) :
    Option (Option T) :=
  if m.storage_arena.size ≤ h.index ∨ m.readV P h.index ≠ h.version then none
  else some (m.storage_arena.mem (m.storage_arena.get_address P h.index))

/-- size(): the number of live (active) elements. -/
def slot_map.size (m : slot_map T) : Nat :=
  m.current_size

/-- empty(): whether no element is live. -/
def slot_map.empty (m : slot_map T) : Bool :=
  m.current_size == 0

/-- advance_to_valid of basic_iterator: increment the index while it is below
storage size and the slot's version has the dead bit set (fuel-bounded while
loop; storage size dominates the number of increments). -/
def slot_map.advance_to_valid (m : slot_map T) (P : Nat) : Nat → Nat → Nat
  | 0, i => i
  | fuel + 1, i =>
    if i < m.storage_arena.size ∧ m.readV P i &&& DEAD_BIT ≠ 0 then
      m.advance_to_valid P fuel (i + 1)
    else i

/-- collect *it for an iterator pass starting at index i and running to end()
(fuel-bounded; the index strictly increases each step). -/
def slot_map.iterate_from (m : slot_map T) (P : Nat) : Nat → Nat → List (Option T)
  | 0, _ => []
  | fuel + 1, i =>
    let j := m.advance_to_valid P m.storage_arena.size i
    if j < m.storage_arena.size then
      m.storage_arena.mem (m.storage_arena.get_address P j) ::
        m.iterate_from P fuel (j + 1)
    else []

/-- one full iteration pass over the slot map, begin() to end(). -/
def slot_map.iterate (m : slot_map T) (P : Nat) : List (Option T) :=
  m.iterate_from P (m.storage_arena.size + 1) 0

/-- structural well-formedness of a slot_map, maintained by every reachable state:
the versions arena tracks the storage arena's watermark and never has recycled
indices of its own; the watermark fits the uint32 handle index; every freelist
index is below the watermark and its slot's version has the dead bit set. -/
def slot_map.WF (m : slot_map T) (P : Nat) : Prop :=
  m.versions_arena.next_global_index = m.storage_arena.next_global_index ∧
  m.versions_arena.freelist.objects = [] ∧
  m.storage_arena.next_global_index ≤ 2 ^ 32 ∧
  m.storage_arena.freelist.objects.Nodup ∧
  ∀ i ∈ m.storage_arena.freelist.objects,
    i < m.storage_arena.next_global_index ∧ m.readV P i &&& DEAD_BIT ≠ 0

instance (m : slot_map T) (P : Nat) : Decidable (m.WF P) := by
  unfold slot_map.WF
  infer_instance

/-- a public mutating slot_map operation together with its argument. -/
inductive slot_map_op (T : Type) where
  | add (v : T)
  | remove (h : slot_map_handle)
  deriving DecidableEq

/-- run one operation; a remove whose validation throws leaves the map unchanged
(both throws in remove happen before any mutation). -/
def slot_map.applyOp (m : slot_map T) (P : Nat) : slot_map_op T → slot_map T
  | .add v => (m.add P v).2
  | .remove h =>
    match m.remove P h with
    | .ok m2 => m2
    | .error _ => m

/-- run a list of operations in order. -/
def slot_map.applyTrace (m : slot_map T) (P : Nat)
    (ops : List (slot_map_op T)) : slot_map T :=
  ops.foldl (fun acc op => acc.applyOp P op) m

/-- an operation is admissible when: an add that would advance the watermark
(empty recycler) still finds it below 2^32, so the issued index survives the
handle's uint32 truncation; and a remove is called with a handle whose version
has the dead flag clear — every handle add returns below generation saturation
is of this shape, while a forged dead-flagged handle can double-free a slot. -/
def slot_map.opOK (m : slot_map T) : slot_map_op T → Bool
  | .add _ =>
    !m.storage_arena.freelist.empty ||
      decide (m.storage_arena.next_global_index < 2 ^ 32)
  | .remove h => decide (h.version &&& DEAD_BIT = 0)

/-- every operation along the trace is admissible in the state it runs in. -/
def slot_map.traceOK (m : slot_map T) (P : Nat) : List (slot_map_op T) → Bool
  | [] => true
  | op :: ops => m.opOK op && ((m.applyOp P op).traceOK P ops)

/-- does this operation remove exactly the given handle? -/
def slot_map_op.isRemoveOf (h : slot_map_handle) : slot_map_op T → Bool
  | .add _ => false
  | .remove h2 => h2 = h

section helper_lemmas

/-- the flat address of global index i equals i. -/
theorem flat_addr (i P : Nat) : i / P * P + i % P = i := by
  rw [Nat.mul_comm]
  exact Nat.div_add_mod i P

@[simp] theorem get_address_eq (a : typed_memory_arena T) (P i : Nat) :
    a.get_address P i = i :=
  flat_addr i P

theorem DEAD_BIT_eq : DEAD_BIT = 2 ^ 31 := by decide

theorem VERSION_MASK_eq : VERSION_MASK = 2 ^ 31 - 1 := by decide

theorem and_mask_lt (v : Nat) : v &&& VERSION_MASK < 2 ^ 31 := by
  rw [VERSION_MASK_eq]
  have h := Nat.and_le_right (n := v) (m := 2 ^ 31 - 1)
  omega

theorem next_version_le (v : Nat) : (v &&& VERSION_MASK) + 1 ≤ 2 ^ 31 := by
  have := and_mask_lt v
  omega

theorem dead_clear_of_lt {v : Nat} (h : v < 2 ^ 31) : v &&& DEAD_BIT = 0 := by
  rw [DEAD_BIT_eq, Nat.and_two_pow, Nat.testBit_lt_two_pow h]
  rfl

theorem lt_of_dead_clear {v : Nat} (hle : v ≤ 2 ^ 31) (h : v &&& DEAD_BIT = 0) :
    v < 2 ^ 31 := by
  rcases Nat.lt_or_ge v (2 ^ 31) with h31 | h31
  · exact h31
  · exfalso
    have hv : v = 2 ^ 31 := le_antisymm hle h31
    rw [hv, DEAD_BIT_eq, Nat.and_two_pow, Nat.testBit_two_pow_self] at h
    simp at h

theorem or_dead_eq_add {v : Nat} (h : v < 2 ^ 31) : v ||| DEAD_BIT = 2 ^ 31 + v := by
  rw [DEAD_BIT_eq, Nat.or_comm]
  have := Nat.mul_add_lt_is_or (i := 31) (b := v) h 1
  simpa [Nat.mul_one] using this.symm

theorem add_dead_and_mask {v : Nat} (h : v < 2 ^ 31) :
    (2 ^ 31 + v) &&& VERSION_MASK = v := by
  rw [VERSION_MASK_eq, Nat.and_pow_two_sub_one_eq_mod, Nat.add_mod_left,
    Nat.mod_eq_of_lt h]

theorem and_mask_of_lt {v : Nat} (h : v < 2 ^ 31) : v &&& VERSION_MASK = v := by
  rw [VERSION_MASK_eq]
  exact Nat.and_pow_two_sub_one_of_lt_two_pow h

theorem or_dead_dead_set (v : Nat) : (v ||| DEAD_BIT) &&& DEAD_BIT ≠ 0 := by
  rw [DEAD_BIT_eq, Nat.and_two_pow, Nat.testBit_or, Nat.testBit_two_pow_self]
  simp

theorem alignUp_zero (a : Nat) : alignUp 0 a = 0 := by
  unfold alignUp
  match a with
  | 0 => rfl
  | a + 1 =>
    rw [Nat.zero_add, Nat.add_sub_cancel, Nat.div_eq_of_lt (Nat.lt_succ_self a)]
    exact Nat.zero_mul _

theorem alignUp_one (c : Nat) : alignUp c 1 = c := by
  unfold alignUp
  simp

end helper_lemmas

section typed_arena_claims

/-- C3: LIFO reuse law — for every typed paged arena state and every index i,
deallocate(i) immediately followed by allocate() returns an allocation result
whose index is i. -/
theorem typed_arena_lifo_reuse (a : typed_memory_arena T) (P i : Nat) :
    (((a.deallocate i).allocate P).1).index = i := by
  unfold typed_memory_arena.allocate typed_memory_arena.deallocate
    free_list.empty free_list.pop_back free_list.push_back
  simp

/-- C7: size() returns the watermark next_global_index_ (the number of indices
ever issued), deallocation leaves it unchanged, and bounds-checked access
at(index) fails with IndexOutOfRange exactly when index ≥ watermark (otherwise
it dereferences the slot). -/
theorem typed_arena_watermark_bounds (a : typed_memory_arena T) (P i j : Nat) :
    a.size = a.next_global_index ∧
    (a.deallocate j).size = a.size ∧
    (a.at_checked P i = .error .indexOutOfRange ↔ a.size ≤ i) ∧
    (a.at_checked P i = .ok (a.mem i) ↔ i < a.size) := by
  refine ⟨rfl, rfl, ?_, ?_⟩ <;>
    · unfold typed_memory_arena.at_checked typed_memory_arena.size
      split <;> simp_all <;> omega

/-- C10: deallocate(index) never fails (it is a total operation), leaves the
watermark, the page count and every slot's contents unchanged, and its only
effect is to push the index onto the recycler. -/
theorem typed_arena_deallocate_frame (a : typed_memory_arena T) (i : Nat) :
    (a.deallocate i).size = a.size ∧
    (a.deallocate i).num_pages = a.num_pages ∧
    (a.deallocate i).mem = a.mem ∧
    (a.deallocate i).freelist.objects = a.freelist.objects ++ [i] :=
  ⟨rfl, rfl, rfl, rfl⟩

end typed_arena_claims

section bump_and_paged_claims

/-- C5: for every bump arena of capacity C and every n ≤ C, reset() followed by
allocate(n, align) succeeds (no AllocationFailed) and returns the arena's base
address. -/
theorem bump_reset_allocate_base (m : memory_arena) (C n align : Nat) (h : n ≤ C) :
    m.reset.allocate C n align = .ok (m.reset.get_base_address, ⟨n⟩) := by
  unfold memory_arena.reset memory_arena.allocate memory_arena.get_base_address
  rw [alignUp_zero]
  simp [h]

/-- witness for bump_reset_allocate_base at capacity 8, request 8, alignment 16,
from a partially used arena. -/
theorem bump_reset_allocate_base_witness :
    (8 : Nat) ≤ 8 ∧
      (memory_arena.mk 3).reset.allocate 8 8 16 =
        .ok ((memory_arena.mk 3).reset.get_base_address, ⟨8⟩) :=
  ⟨by decide, bump_reset_allocate_base ⟨3⟩ 8 8 16 (by decide)⟩

/-- C6: a paged arena rejects any request whose byte count exceeds the page
capacity with a null result, touching nothing; and an allocation is never split
across two pages — every successful allocation lies wholly within one page. -/
theorem paged_arena_oversize_rejection (p : paged_memory_arena)
    (C bytes align : Nat) :
    (C < bytes → p.allocate C bytes align = (.ok none, p)) ∧
    (∀ pg off, (p.allocate C bytes align).1 = .ok (some (pg, off)) →
      off + bytes ≤ C) := by
  constructor
  · intro h
    unfold paged_memory_arena.allocate
    simp [h]
  · intro pg off hres
    unfold paged_memory_arena.allocate at hres
    split at hres
    · simp at hres
    · split at hres
      · simp at hres
      · split at hres
        · rename_i off2 pg2 halloc
          simp at hres
          unfold memory_arena.allocate at halloc
          split at halloc
          · rename_i hle
            cases halloc
            omega
          · cases halloc
        · split at hres
          · rename_i off2 pg2 hfresh
            simp at hres
            unfold memory_arena.allocate at hfresh
            split at hfresh
            · rename_i hle
              cases hfresh
              omega
            · cases hfresh
          · simp at hres

/-- witness for paged_arena_oversize_rejection: a 9-byte request on a 4-byte-page
arena yields nullptr, and a successful 2-byte allocation at offset 0 lies within
the 4-byte page. -/
theorem paged_arena_oversize_rejection_witness :
    ((4 : Nat) < 9 ∧
      paged_memory_arena.init.allocate 4 9 1 = (.ok none, paged_memory_arena.init)) ∧
    ((paged_memory_arena.init.allocate 4 2 1).1 = .ok (some (0, 0)) ∧
      (0 : Nat) + 2 ≤ 4) :=
  ⟨⟨by decide, (paged_arena_oversize_rejection paged_memory_arena.init 4 9 1).1
      (by decide)⟩,
   ⟨by decide, (paged_arena_oversize_rejection paged_memory_arena.init 4 2 1).2
      0 0 (by decide)⟩⟩

/-- a same-size allocation that fits the current page stays on it and bumps only
that page's cursor. -/
theorem paged_alloc_step_fits (p : paged_memory_arena) (C s : Nat)
    (rest : List memory_arena) (c : Nat) (hp : p.pages = rest ++ [⟨c⟩])
    (hbytes : s ≤ C) (hfits : alignUp c 1 + s ≤ C) :
    (p.allocate C s 1).2.pages = rest ++ [⟨alignUp c 1 + s⟩] := by
  have h1 : ¬ C < s := by omega
  unfold paged_memory_arena.allocate
  rw [hp]
  simp [h1, List.getLast?_concat, memory_arena.allocate, hfits,
    List.dropLast_concat]

/-- a same-size allocation that does not fit the current page opens a new page
and is served from its start. -/
theorem paged_alloc_step_full (p : paged_memory_arena) (C s : Nat)
    (rest : List memory_arena) (c : Nat) (hp : p.pages = rest ++ [⟨c⟩])
    (hbytes : s ≤ C) (hnofit : ¬ alignUp c 1 + s ≤ C) :
    (p.allocate C s 1).2.pages = (rest ++ [⟨c⟩]) ++ [⟨alignUp 0 1 + s⟩] := by
  have h1 : ¬ C < s := by omega
  have hf : alignUp 0 1 + s ≤ C := by rw [alignUp_one]; omega
  unfold paged_memory_arena.allocate
  rw [hp]
  simp [h1, List.getLast?_concat, memory_arena.allocate, memory_arena.init,
    hnofit, hf]

/-- after n ≥ 1 same-size allocations of size s (with s * k = C), the arena holds
(n-1)/k + 1 pages and the last page's cursor sits at ((n-1) % k + 1) * s. -/
theorem alloc_many_invariant (C s k : Nat) (hs : 1 ≤ s) (hk : 1 ≤ k)
    (hC : C = s * k) (n : Nat) (hn : 1 ≤ n) :
    ∃ rest : List memory_arena,
      (paged_memory_arena.init.alloc_many C s n).pages
        = rest ++ [⟨((n - 1) % k + 1) * s⟩] ∧
      (paged_memory_arena.init.alloc_many C s n).pages.length = (n - 1) / k + 1 := by
  have hsC : s ≤ C := by
    rw [hC]
    calc s = s * 1 := by ring
    _ ≤ s * k := Nat.mul_le_mul_left s hk
  induction n with
  | zero => omega
  | succ n ih =>
    rcases Nat.lt_or_ge 1 (n + 1) with h1 | h1
    · -- inductive step: n ≥ 1
      have hn1 : 1 ≤ n := by omega
      obtain ⟨rest, hpages, hlen⟩ := ih hn1
      set q := (n - 1) / k with hq
      set r := (n - 1) % k with hr
      have hrk : r < k := Nat.mod_lt (n - 1) hk
      have hdm : k * q + r = n - 1 := Nat.div_add_mod (n - 1) k
      have hnqr : n = k * q + (r + 1) := by omega
      have hstep : (paged_memory_arena.init.alloc_many C s (n + 1)).pages
          = ((paged_memory_arena.init.alloc_many C s n).allocate C s 1).2.pages := rfl
      have halign : alignUp ((r + 1) * s) 1 = (r + 1) * s := alignUp_one _
      rcases Nat.lt_or_ge (r + 1) k with hcase | hcase
      · -- the allocation fits in the current page
        have hfits : alignUp ((r + 1) * s) 1 + s ≤ C := by
          rw [halign, hC]
          have h2 : (r + 1) * s + s = (r + 2) * s := by ring
          have h3 : (r + 2) * s ≤ k * s := Nat.mul_le_mul_right s (by omega)
          have h4 : k * s = s * k := by ring
          omega
        have hmod : n % k = r + 1 := by
          rw [hnqr, Nat.mul_add_mod, Nat.mod_eq_of_lt hcase]
        have hdiv : n / k = q := by
          rw [hnqr, Nat.mul_add_div hk, Nat.div_eq_of_lt hcase]
          omega
        refine ⟨rest, ?_, ?_⟩
        · rw [hstep, paged_alloc_step_fits _ C s rest _ hpages hsC hfits, halign]
          have : (r + 1) * s + s = (n % k + 1) * s := by rw [hmod]; ring
          rw [Nat.add_sub_cancel, this]
        · have hlast := paged_alloc_step_fits _ C s rest _ hpages hsC hfits
          rw [hstep, hlast, Nat.add_sub_cancel, hdiv]
          have : (rest ++ [(⟨((n - 1) % k + 1) * s⟩ : memory_arena)]).length
              = rest.length + 1 := by simp
          rw [hpages] at hlen
          simp at hlen ⊢
          omega
      · -- the current page is exactly full: a new page is opened
        have hrk1 : r + 1 = k := by omega
        have hnofit : ¬ alignUp ((r + 1) * s) 1 + s ≤ C := by
          rw [halign, hC, hrk1]
          have h2 : s * k < k * s + s := by
            have : s * k = k * s := by ring
            omega
          omega
        have hmod : n % k = 0 := by
          have : n = k * (q + 1) := by rw [hnqr, hrk1]; ring
          rw [this, Nat.mul_mod_right]
        have hdiv : n / k = q + 1 := by
          have : n = k * (q + 1) := by rw [hnqr, hrk1]; ring
          rw [this, Nat.mul_div_cancel_left _ hk]
        refine ⟨rest ++ [⟨((n - 1) % k + 1) * s⟩], ?_, ?_⟩
        · rw [hstep, paged_alloc_step_full _ C s rest _ hpages hsC hnofit,
            Nat.add_sub_cancel, hmod, alignUp_one]
          simp
        · have hlast := paged_alloc_step_full _ C s rest _ hpages hsC hnofit
          rw [hstep, hlast, Nat.add_sub_cancel, hdiv]
          rw [hpages] at hlen
          simp at hlen ⊢
          omega
    · -- base case: the very first allocation
      have hn0 : n = 0 := by omega
      subst hn0
      have hinit : (paged_memory_arena.init.alloc_many C s 0).pages
          = [] ++ [(⟨0⟩ : memory_arena)] := rfl
      have hfits : alignUp 0 1 + s ≤ C := by rw [alignUp_one]; omega
      have hstep := paged_alloc_step_fits (paged_memory_arena.init.alloc_many C s 0)
        C s [] 0 hinit hsC hfits
      refine ⟨[], ?_, ?_⟩
      · show ((paged_memory_arena.init.alloc_many C s 0).allocate C s 1).2.pages = _
        rw [hstep, alignUp_one]
        simp [Nat.mod_eq_of_lt hk]
      · show (((paged_memory_arena.init.alloc_many C s 0).allocate C s 1).2.pages).length = _
        rw [hstep]
        simp

/-- ceiling-division change of scale: ceil(((a+1)) / k) = ceil((a+1)*s / (s*k)). -/
theorem ceil_div_scale (s k a : Nat) (hs : 1 ≤ s) (hk : 1 ≤ k) :
    a / k + 1 = ((a + 1) * s + s * k - 1) / (s * k) := by
  have hsk : 0 < s * k := Nat.mul_pos hs hk
  obtain ⟨q, r, hrk, ha⟩ : ∃ q r, r < k ∧ a = k * q + r :=
    ⟨a / k, a % k, Nat.mod_lt a hk, (Nat.div_add_mod a k).symm⟩
  subst ha
  have h1 : (k * q + r) / k = q := by
    rw [Nat.mul_add_div hk, Nat.div_eq_of_lt hrk]
    omega
  have e1 : (k * q + r + 1) * s = s * k * q + r * s + s := by ring
  have e2 : r * s + s ≤ s * k := by
    have h3 : (r + 1) * s ≤ k * s := Nat.mul_le_mul_right s hrk
    have h4 : (r + 1) * s = r * s + s := by ring
    have h5 : k * s = s * k := by ring
    omega
  have hnum : (k * q + r + 1) * s + s * k - 1
      = s * k * q + (r * s + s - 1) + s * k := by omega
  rw [h1, hnum, Nat.add_div_right _ hsk, Nat.mul_add_div hsk,
    Nat.div_eq_of_lt (by omega : r * s + s - 1 < s * k)]

/-- C4 (amended): when the allocation size s divides the page capacity C, the
page count after N ≥ 1 allocations of size s from a fresh paged arena equals
ceil(N * s / C), the minimum number of pages covering N * s bytes.  (The
divisibility proviso is forced: allocations are never split across pages, so in
general the count is ceil(N / floor(C / s)); see the counterexample.) -/
theorem paged_arena_growth (C s N : Nat) (hs : 1 ≤ s) (hsC : s ≤ C)
    (hdvd : s ∣ C) (hN : 1 ≤ N) :
    (paged_memory_arena.init.alloc_many C s N).pages.length
      = (N * s + C - 1) / C := by
  obtain ⟨k, hC⟩ := hdvd
  have hk : 1 ≤ k := by
    rcases Nat.eq_zero_or_pos k with h0 | h
    · subst h0
      simp [Nat.mul_zero] at hC
      omega
    · exact h
  obtain ⟨rest, hpages, hlen⟩ := alloc_many_invariant C s k hs hk hC N hN
  rw [hlen, hC]
  have h := ceil_div_scale s k (N - 1) hs hk
  rw [Nat.sub_add_cancel hN] at h
  exact h

/-- witness for paged_arena_growth: capacity 4, size 2, three allocations give
ceil(6/4) = 2 pages. -/
theorem paged_arena_growth_witness :
    ((1 : Nat) ≤ 2 ∧ (2 : Nat) ≤ 4 ∧ (2 : Nat) ∣ 4 ∧ (1 : Nat) ≤ 3) ∧
    (paged_memory_arena.init.alloc_many 4 2 3).pages.length = (3 * 2 + 4 - 1) / 4 :=
  ⟨⟨by decide, by decide, ⟨2, by norm_num⟩, by decide⟩,
    paged_arena_growth 4 2 3 (by decide) (by decide) ⟨2, by norm_num⟩ (by decide)⟩

/-- counterexample to C4 as stated: page capacity 3, allocation size 2
(1 ≤ s ≤ C but s does not divide C), N = 3 allocations.  Allocations are never
split across pages, so each 3-byte page holds a single 2-byte allocation and the
arena ends with 3 pages, while ceil(N * s / C) = ceil(6 / 3) = 2. -/
theorem paged_arena_growth_counterexample :
    ((1 : Nat) ≤ 2 ∧ (2 : Nat) ≤ 3 ∧ (1 : Nat) ≤ 3) ∧
    (paged_memory_arena.init.alloc_many 3 2 3).pages.length ≠ (3 * 2 + 3 - 1) / 3 :=
  ⟨by decide, by decide⟩

end bump_and_paged_claims

section slot_map_lemmas

/-- allocate() on an empty freelist issues the watermark index. -/
theorem typed_allocate_fresh (a : typed_memory_arena T) (P : Nat)
    (hfl : a.freelist.objects = []) :
    a.allocate P =
      (⟨a.next_global_index / P * P + a.next_global_index % P, a.next_global_index⟩,
        { a with
          num_pages :=
            if a.num_pages ≤ a.next_global_index / P then a.num_pages + 1
            else a.num_pages,
          next_global_index := a.next_global_index + 1 }) := by
  unfold typed_memory_arena.allocate free_list.empty
  rw [hfl]
  simp

/-- allocate() on a nonempty freelist pops and reuses its most recent index. -/
theorem typed_allocate_reuse (a : typed_memory_arena T) (P : Nat) (l : List Nat)
    (i : Nat) (hfl : a.freelist.objects = l ++ [i]) :
    a.allocate P = (⟨i / P * P + i % P, i⟩, { a with freelist := ⟨l⟩ }) := by
  unfold typed_memory_arena.allocate free_list.empty free_list.pop_back
  rw [hfl]
  simp [List.getLast?_concat, List.dropLast_concat]

/-- the version sync loop is a no-op once the versions arena has caught up. -/
theorem syncVersions_done (P fuel : Nat) (v : typed_memory_arena Nat)
    (target : Nat) (h : ¬ v.next_global_index < target) :
    slot_map.syncVersions P fuel v target = v := by
  cases fuel with
  | zero => rfl
  | succ fuel =>
    unfold slot_map.syncVersions
    simp [typed_memory_arena.size, h]

/-- the version sync loop, one index behind with an empty freelist, performs
exactly one allocate-and-zero step. -/
theorem syncVersions_one_step (P : Nat) (v : typed_memory_arena Nat)
    (n fuel : Nat) (hsize : v.next_global_index = n)
    (hvfl : v.freelist.objects = []) :
    slot_map.syncVersions P (fuel + 1) v (n + 1)
      = { v with
          num_pages := if v.num_pages ≤ n / P then v.num_pages + 1 else v.num_pages,
          next_global_index := n + 1,
          mem := fun j => if j = n then some 0 else v.mem j } := by
  unfold slot_map.syncVersions
  have hlt : v.size < n + 1 := by
    unfold typed_memory_arena.size
    omega
  rw [if_pos hlt, typed_allocate_fresh v P hvfl]
  have hstep :
      (({ v with
          num_pages := if v.num_pages ≤ v.next_global_index / P then v.num_pages + 1
            else v.num_pages,
          next_global_index := v.next_global_index + 1 } :
            typed_memory_arena Nat)).write
        ((v.next_global_index + 1) - 1) 0
      = { v with
          num_pages := if v.num_pages ≤ n / P then v.num_pages + 1 else v.num_pages,
          next_global_index := n + 1,
          mem := fun j => if j = n then some 0 else v.mem j } := by
    unfold typed_memory_arena.write
    rw [hsize]
    simp
  simp only [typed_memory_arena.size, get_address_eq]
  rw [hstep]
  exact syncVersions_done P fuel _ (n + 1) (by simp [typed_memory_arena.size])

/-- add on an empty recycler (watermark advance): the fresh slot's version entry
is zero-filled by the sync loop and then bumped to exactly 1. -/
theorem add_fresh_eq (m : slot_map T) (P : Nat) (v : T)
    (hsync : m.versions_arena.next_global_index = m.storage_arena.next_global_index)
    (hvfl : m.versions_arena.freelist.objects = [])
    (hfl : m.storage_arena.freelist.objects = [])
    (hlt : m.storage_arena.next_global_index < 2 ^ 32) :
    m.add P v =
      (⟨m.storage_arena.next_global_index, 1⟩,
       { storage_arena :=
           { num_pages :=
               if m.storage_arena.num_pages ≤ m.storage_arena.next_global_index / P
               then m.storage_arena.num_pages + 1 else m.storage_arena.num_pages,
             freelist := m.storage_arena.freelist,
             next_global_index := m.storage_arena.next_global_index + 1,
             mem := fun j => if j = m.storage_arena.next_global_index then some v
                             else m.storage_arena.mem j },
         versions_arena :=
           { num_pages :=
               if m.versions_arena.num_pages ≤ m.storage_arena.next_global_index / P
               then m.versions_arena.num_pages + 1 else m.versions_arena.num_pages,
             freelist := m.versions_arena.freelist,
             next_global_index := m.storage_arena.next_global_index + 1,
             mem := fun j => if j = m.storage_arena.next_global_index then some 1
                             else m.versions_arena.mem j },
         current_size := m.current_size + 1 }) := by
  unfold slot_map.add
  rw [typed_allocate_fresh _ _ hfl]
  simp only [typed_memory_arena.size]
  rw [syncVersions_one_step P m.versions_arena m.storage_arena.next_global_index
    m.storage_arena.next_global_index hsync hvfl]
  simp only [get_address_eq, Nat.mod_eq_of_lt hlt, typed_memory_arena.write,
    flat_addr, Prod.mk.injEq, slot_map.mk.injEq, slot_map_handle.mk.injEq]
  refine ⟨⟨trivial, by simp⟩, trivial, ?_, trivial⟩
  congr 1
  funext j
  by_cases hj : j = m.storage_arena.next_global_index <;> simp [hj]

/-- add on a nonempty recycler: the most recent freelist index is reused and its
version is bumped with the dead bit cleared. -/
theorem add_reuse_eq (m : slot_map T) (P : Nat) (v : T) (l : List Nat) (i : Nat)
    (hsync : m.versions_arena.next_global_index = m.storage_arena.next_global_index)
    (hfl : m.storage_arena.freelist.objects = l ++ [i])
    (hi : i < 2 ^ 32) :
    m.add P v =
      (⟨i, (m.readV P i &&& VERSION_MASK) + 1⟩,
       { storage_arena :=
           { num_pages := m.storage_arena.num_pages,
             freelist := ⟨l⟩,
             next_global_index := m.storage_arena.next_global_index,
             mem := fun j => if j = i then some v else m.storage_arena.mem j },
         versions_arena :=
           { num_pages := m.versions_arena.num_pages,
             freelist := m.versions_arena.freelist,
             next_global_index := m.versions_arena.next_global_index,
             mem := fun j => if j = i then some ((m.readV P i &&& VERSION_MASK) + 1)
                             else m.versions_arena.mem j },
         current_size := m.current_size + 1 }) := by
  unfold slot_map.add
  rw [typed_allocate_reuse _ _ l i hfl]
  simp only [typed_memory_arena.size]
  rw [syncVersions_done P _ _ _ (by simp [typed_memory_arena.size, hsync])]
  simp only [get_address_eq, Nat.mod_eq_of_lt hi, typed_memory_arena.write,
    flat_addr, Prod.mk.injEq, slot_map.mk.injEq, slot_map_handle.mk.injEq,
    slot_map.readV]

/-- remove on a handle that passes validation: destruct, set the dead bit, push
the index onto the recycler, decrement the live count. -/
theorem remove_ok_eq (m : slot_map T) (P : Nat) (h : slot_map_handle)
    (hidx : h.index < m.storage_arena.next_global_index)
    (hver : m.readV P h.index = h.version) :
    m.remove P h =
      .ok { storage_arena :=
              { num_pages := m.storage_arena.num_pages,
                freelist := ⟨m.storage_arena.freelist.objects ++ [h.index]⟩,
                next_global_index := m.storage_arena.next_global_index,
                mem := fun j => if j = h.index then none else m.storage_arena.mem j },
            versions_arena :=
              { num_pages := m.versions_arena.num_pages,
                freelist := m.versions_arena.freelist,
                next_global_index := m.versions_arena.next_global_index,
                mem := fun j => if j = h.index then some (h.version ||| DEAD_BIT)
                                else m.versions_arena.mem j },
            current_size := m.current_size - 1 } := by
  unfold slot_map.remove
  rw [if_neg (by unfold typed_memory_arena.size; omega), hver]
  simp only [ne_eq, not_true_eq_false, if_neg, ite_false]
  unfold typed_memory_arena.destroy typed_memory_arena.deallocate
    typed_memory_arena.write free_list.push_back
  simp only [get_address_eq]

/-- remove fails without mutation when the handle index is out of range. -/
theorem remove_err_bounds (m : slot_map T) (P : Nat) (h : slot_map_handle)
    (hidx : m.storage_arena.next_global_index ≤ h.index) :
    m.remove P h = .error .invalidHandle := by
  unfold slot_map.remove
  rw [if_pos (by unfold typed_memory_arena.size; omega)]

/-- remove fails without mutation when the stored version differs from the
handle's. -/
theorem remove_err_version (m : slot_map T) (P : Nat) (h : slot_map_handle)
    (hver : m.readV P h.index ≠ h.version) :
    m.remove P h = .error .invalidHandle := by
  unfold slot_map.remove
  split
  · rfl
  · simp [hver]

/-- at on a valid handle returns the slot contents. -/
theorem at_checked_valid (m : slot_map T) (P : Nat) (h : slot_map_handle)
    (hidx : h.index < m.storage_arena.next_global_index)
    (hver : m.readV P h.index = h.version) :
    m.at_checked P h = .ok (m.storage_arena.mem h.index) := by
  unfold slot_map.at_checked
  rw [if_neg (by unfold typed_memory_arena.size; omega)]
  simp only [get_address_eq]

/-- at on an invalid handle (out of range or version mismatch) throws. -/
theorem at_checked_invalid (m : slot_map T) (P : Nat) (h : slot_map_handle)
    (hbad : m.storage_arena.next_global_index ≤ h.index ∨
      m.readV P h.index ≠ h.version) :
    m.at_checked P h = .error .invalidHandle := by
  unfold slot_map.at_checked
  rw [if_pos]
  exact hbad

/-- find on a valid handle returns the (non-null) slot pointer's contents. -/
theorem find_valid (m : slot_map T) (P : Nat) (h : slot_map_handle)
    (hidx : h.index < m.storage_arena.next_global_index)
    (hver : m.readV P h.index = h.version) :
    m.find P h = some (m.storage_arena.mem h.index) := by
  unfold slot_map.find
  rw [if_neg (by unfold typed_memory_arena.size; omega)]
  simp only [get_address_eq]

/-- find on an invalid handle returns nullptr. -/
theorem find_invalid (m : slot_map T) (P : Nat) (h : slot_map_handle)
    (hbad : m.storage_arena.next_global_index ≤ h.index ∨
      m.readV P h.index ≠ h.version) :
    m.find P h = none := by
  unfold slot_map.find
  rw [if_pos]
  exact hbad


/-- the handle h is live with value v in state m: the map is well-formed, the
handle is in range, the stored version matches the handle exactly and has the
dead bit clear, and the slot holds v. -/
def slot_map.LiveAt (m : slot_map T) (P : Nat) (h : slot_map_handle) (v : T) :
    Prop :=
  m.WF P ∧
  h.index < m.storage_arena.next_global_index ∧
  m.readV P h.index = h.version ∧
  h.version < 2 ^ 31 ∧
  m.storage_arena.mem h.index = some v

/-- an admissible add whose returned handle has the dead flag clear leaves that
handle live on its value. -/
theorem add_establishes_live (m : slot_map T) (P : Nat) (v : T)
    (hwf : m.WF P) (hok : m.opOK (.add v) = true)
    (hsat : (m.add P v).1.version &&& DEAD_BIT = 0) :
    (m.add P v).2.LiveAt P (m.add P v).1 v := by
  obtain ⟨hsync, hvfl, hle, hnd, hfree⟩ := hwf
  rcases List.eq_nil_or_concat m.storage_arena.freelist.objects with hfl | ⟨l, i, hfl⟩
  · -- fresh allocation at the watermark
    have hlt : m.storage_arena.next_global_index < 2 ^ 32 := by
      unfold slot_map.opOK at hok
      simp [free_list.empty, hfl] at hok
      exact hok
    rw [add_fresh_eq m P v hsync hvfl hfl hlt]
    simp only [slot_map.LiveAt, slot_map.WF, slot_map.readV, get_address_eq]
    refine ⟨⟨trivial, hvfl, by omega, hnd, ?_⟩, by omega, by simp, by norm_num, by simp⟩
    rw [hfl]
    simp
  · -- reuse of the most recent recycled index
    rw [List.concat_eq_append] at hfl
    have hil : i ∈ m.storage_arena.freelist.objects := by
      rw [hfl]
      exact List.mem_append_right l (List.mem_singleton.mpr rfl)
    have hi : i < m.storage_arena.next_global_index := (hfree i hil).1
    have hi32 : i < 2 ^ 32 := by omega
    have hnd2 : l.Nodup ∧ i ∉ l := by
      rw [hfl, List.nodup_append] at hnd
      exact ⟨hnd.1, fun hmem => hnd.2.2 hmem (List.mem_singleton.mpr rfl)⟩
    rw [add_reuse_eq m P v l i hsync hfl hi32] at hsat ⊢
    have hver : (m.readV P i &&& VERSION_MASK) + 1 < 2 ^ 31 := by
      refine lt_of_dead_clear (next_version_le _) ?_
      simpa using hsat
    simp only [slot_map.LiveAt, slot_map.WF, slot_map.readV, get_address_eq]
    refine ⟨⟨hsync, hvfl, hle, hnd2.1, ?_⟩, hi, by simp, ?_, by simp⟩
    · intro j hj
      have hji : j ≠ i := fun hcontra => hnd2.2 (hcontra ▸ hj)
      have hmem : j ∈ m.storage_arena.freelist.objects := by
        rw [hfl]
        exact List.mem_append_left _ hj
      refine ⟨(hfree j hmem).1, ?_⟩
      have h2 := (hfree j hmem).2
      unfold slot_map.readV at h2
      simp only [get_address_eq] at h2
      simpa [hji] using h2
    · have h3 := hver
      unfold slot_map.readV at h3
      simpa only [get_address_eq] using h3


/-- one admissible operation that is not remove(h) preserves liveness of h. -/
theorem liveAt_step (m : slot_map T) (P : Nat) (h : slot_map_handle) (v : T)
    (op : slot_map_op T) (hlive : m.LiveAt P h v)
    (hok : m.opOK op = true) (hnr : op.isRemoveOf h = false) :
    (m.applyOp P op).LiveAt P h v := by
  obtain ⟨⟨hsync, hvfl, hle, hnd, hfree⟩, hhi, hhv, hhlt, hhm⟩ := hlive
  cases op with
  | add w =>
    show ((m.add P w).2).LiveAt P h v
    rcases List.eq_nil_or_concat m.storage_arena.freelist.objects with hfl | ⟨l, i, hfl⟩
    · have hlt : m.storage_arena.next_global_index < 2 ^ 32 := by
        unfold slot_map.opOK at hok
        simp [free_list.empty, hfl] at hok
        exact hok
      have hne : h.index ≠ m.storage_arena.next_global_index := by omega
      rw [add_fresh_eq m P w hsync hvfl hfl hlt]
      simp only [slot_map.LiveAt, slot_map.WF, slot_map.readV, get_address_eq]
      refine ⟨⟨trivial, hvfl, by omega, hnd, ?_⟩, by omega, ?_, hhlt, ?_⟩
      · rw [hfl]
        simp
      · unfold slot_map.readV at hhv
        simp only [get_address_eq] at hhv
        simpa [hne] using hhv
      · simpa [hne] using hhm
    · rw [List.concat_eq_append] at hfl
      have hil : i ∈ m.storage_arena.freelist.objects := by
        rw [hfl]
        exact List.mem_append_right l (List.mem_singleton.mpr rfl)
      have hi : i < m.storage_arena.next_global_index := (hfree i hil).1
      have hi32 : i < 2 ^ 32 := by omega
      have hne : h.index ≠ i := by
        intro hcontra
        have hidead := (hfree i hil).2
        rw [← hcontra, hhv] at hidead
        exact hidead (dead_clear_of_lt hhlt)
      have hnd2 : l.Nodup ∧ i ∉ l := by
        rw [hfl, List.nodup_append] at hnd
        exact ⟨hnd.1, fun hmem => hnd.2.2 hmem (List.mem_singleton.mpr rfl)⟩
      rw [add_reuse_eq m P w l i hsync hfl hi32]
      simp only [slot_map.LiveAt, slot_map.WF, slot_map.readV, get_address_eq]
      refine ⟨⟨hsync, hvfl, hle, hnd2.1, ?_⟩, hhi, ?_, hhlt, ?_⟩
      · intro j hj
        have hji : j ≠ i := fun hcontra => hnd2.2 (hcontra ▸ hj)
        have hmem : j ∈ m.storage_arena.freelist.objects := by
          rw [hfl]
          exact List.mem_append_left _ hj
        refine ⟨(hfree j hmem).1, ?_⟩
        have h2 := (hfree j hmem).2
        unfold slot_map.readV at h2
        simp only [get_address_eq] at h2
        simpa [hji] using h2
      · unfold slot_map.readV at hhv
        simp only [get_address_eq] at hhv
        simpa [hne] using hhv
      · simpa [hne] using hhm
  | remove h2 =>
    have hok2 : h2.version &&& DEAD_BIT = 0 := by
      unfold slot_map.opOK at hok
      simpa using hok
    have hne : h2 ≠ h := by
      intro hcontra
      rw [hcontra] at hnr
      unfold slot_map_op.isRemoveOf at hnr
      simp at hnr
    show (match m.remove P h2 with | .ok m2 => m2 | .error _ => m).LiveAt P h v
    by_cases hb : m.storage_arena.next_global_index ≤ h2.index
    · rw [remove_err_bounds m P h2 hb]
      exact ⟨⟨hsync, hvfl, hle, hnd, hfree⟩, hhi, hhv, hhlt, hhm⟩
    · by_cases hv2 : m.readV P h2.index = h2.version
      · have hne2 : h2.index ≠ h.index := by
          intro hcontra
          apply hne
          have hvv : h2.version = h.version := by rw [← hv2, hcontra, hhv]
          cases h2
          cases h
          simp_all
        rw [remove_ok_eq m P h2 (by omega) hv2]
        simp only [slot_map.LiveAt, slot_map.WF, slot_map.readV, get_address_eq]
        refine ⟨⟨hsync, hvfl, hle, ?_, ?_⟩, hhi, ?_, hhlt, ?_⟩
        · rw [List.nodup_append]
          refine ⟨hnd, List.nodup_singleton _, ?_⟩
          intro j hj hj2
          rw [List.mem_singleton] at hj2
          have hjd := (hfree j hj).2
          unfold slot_map.readV at hjd hv2
          rw [hj2, hv2] at hjd
          exact hjd hok2
        · intro j hj
          rw [List.mem_append] at hj
          rcases hj with hj | hj
          · have hji : j ≠ h2.index := by
              intro hcontra
              have hjd := (hfree j hj).2
              unfold slot_map.readV at hjd hv2
              rw [hcontra, hv2] at hjd
              exact hjd hok2
            refine ⟨(hfree j hj).1, ?_⟩
            have h3 := (hfree j hj).2
            unfold slot_map.readV at h3
            simp only [get_address_eq] at h3
            simpa [hji] using h3
          · rw [List.mem_singleton] at hj
            subst hj
            refine ⟨by omega, ?_⟩
            simpa using or_dead_dead_set h2.version
        · unfold slot_map.readV at hhv
          simp only [get_address_eq] at hhv
          simpa [Ne.symm hne2] using hhv
        · simpa [Ne.symm hne2] using hhm
      · rw [remove_err_version m P h2 hv2]
        exact ⟨⟨hsync, hvfl, hle, hnd, hfree⟩, hhi, hhv, hhlt, hhm⟩

/-- an admissible trace containing no remove(h) preserves liveness of h. -/
theorem liveAt_trace (m : slot_map T) (P : Nat) (h : slot_map_handle) (v : T)
    (ops : List (slot_map_op T)) (hlive : m.LiveAt P h v)
    (hok : m.traceOK P ops = true)
    (hnr : ops.all (fun op => !(op.isRemoveOf h)) = true) :
    (m.applyTrace P ops).LiveAt P h v := by
  induction ops generalizing m with
  | nil => exact hlive
  | cons op ops ih =>
    unfold slot_map.traceOK at hok
    rw [Bool.and_eq_true] at hok
    rw [List.all_cons, Bool.and_eq_true] at hnr
    have hstep := liveAt_step m P h v op hlive hok.1 (by simpa using hnr.1)
    unfold slot_map.applyTrace
    rw [List.foldl_cons]
    exact ih _ hstep hok.2 hnr.2


end slot_map_lemmas

section slot_map_claims

/-- C9: an add that issues a never-before-used slot index (watermark advance from
an empty recycler, watermark within the uint32 handle range) returns a handle
whose generation is exactly 1: the fresh generation-table entry is zero-filled by
the sync loop and then incremented once. -/
theorem fresh_slot_generation_one (m : slot_map T) (P : Nat) (v : T)
    (hwf : m.WF P) (hfl : m.storage_arena.freelist.objects = [])
    (hlt : m.storage_arena.next_global_index < 2 ^ 32) :
    (m.add P v).1 = ⟨m.storage_arena.next_global_index, 1⟩ := by
  obtain ⟨hsync, hvfl, hle, hnd, hfree⟩ := hwf
  rw [add_fresh_eq m P v hsync hvfl hfl hlt]

/-- witness for fresh_slot_generation_one: the first add on a default-constructed
slot map returns handle (0, 1). -/
theorem fresh_slot_generation_one_witness :
    ((slot_map.init Nat).WF 1024 ∧
      (slot_map.init Nat).storage_arena.freelist.objects = [] ∧
      (slot_map.init Nat).storage_arena.next_global_index < 2 ^ 32) ∧
    ((slot_map.init Nat).add 1024 42).1 = ⟨0, 1⟩ :=
  ⟨⟨by decide, by decide, by decide⟩,
    fresh_slot_generation_one (slot_map.init Nat) 1024 42 (by decide) (by decide)
      (by decide)⟩

/-- C1 (amended): slot-map round trip.  From any well-formed state, let
h = add(v) be an admissible add whose returned generation has the dead flag
clear (the generation counter is not saturated), and run any admissible
operations none of which is remove(h).  Then at(h) yields v; remove(h) then
succeeds, after which find(h) is absent (nullptr) and at(h) fails with
InvalidHandle. -/
theorem slot_map_round_trip (m : slot_map T) (P : Nat) (v : T)
    (ops : List (slot_map_op T)) (hwf : m.WF P)
    (hok0 : m.opOK (.add v) = true)
    (hsat : (m.add P v).1.version &&& DEAD_BIT = 0)
    (htr : (m.add P v).2.traceOK P ops = true)
    (hnr : ops.all (fun op => !(op.isRemoveOf (m.add P v).1)) = true) :
    ((m.add P v).2.applyTrace P ops).at_checked P (m.add P v).1 = .ok (some v) ∧
    ∃ m3, ((m.add P v).2.applyTrace P ops).remove P (m.add P v).1 = .ok m3 ∧
      m3.find P (m.add P v).1 = none ∧
      m3.at_checked P (m.add P v).1 = .error .invalidHandle := by
  have hlive0 := add_establishes_live m P v hwf hok0 hsat
  have hlive := liveAt_trace _ P _ v ops hlive0 htr hnr
  obtain ⟨⟨hsync, hvfl, hle, hnd, hfree⟩, hhi, hhv, hhlt, hhm⟩ := hlive
  constructor
  · rw [at_checked_valid _ P _ hhi hhv, hhm]
  · refine ⟨_, remove_ok_eq _ P _ hhi hhv, ?_, ?_⟩
    · apply find_invalid
      right
      unfold slot_map.readV
      simp only [get_address_eq]
      simp only [ite_true, if_pos rfl, Option.getD_some]
      rw [or_dead_eq_add hhlt]
      omega
    · apply at_checked_invalid
      right
      unfold slot_map.readV
      simp only [get_address_eq]
      simp only [ite_true, if_pos rfl, Option.getD_some]
      rw [or_dead_eq_add hhlt]
      omega

end slot_map_claims

/-- witness for slot_map_round_trip: add 5 to an empty map, then an interleaved
add 7 and a failing remove, then remove the original handle. -/
theorem slot_map_round_trip_witness :
    ((slot_map.init Nat).WF 1024 ∧
     (slot_map.init Nat).opOK (.add 5) = true ∧
     ((slot_map.init Nat).add 1024 5).1.version &&& DEAD_BIT = 0 ∧
     ((slot_map.init Nat).add 1024 5).2.traceOK 1024
       [.add 7, .remove ⟨0, 9⟩] = true ∧
     ([.add 7, .remove ⟨0, 9⟩] : List (slot_map_op Nat)).all
       (fun op => !(op.isRemoveOf ((slot_map.init Nat).add 1024 5).1)) = true) ∧
    ((((slot_map.init Nat).add 1024 5).2.applyTrace 1024
        [.add 7, .remove ⟨0, 9⟩]).at_checked 1024
        ((slot_map.init Nat).add 1024 5).1 = .ok (some 5) ∧
      ∃ m3, (((slot_map.init Nat).add 1024 5).2.applyTrace 1024
          [.add 7, .remove ⟨0, 9⟩]).remove 1024
          ((slot_map.init Nat).add 1024 5).1 = .ok m3 ∧
        m3.find 1024 ((slot_map.init Nat).add 1024 5).1 = none ∧
        m3.at_checked 1024 ((slot_map.init Nat).add 1024 5).1
          = .error .invalidHandle) :=
  ⟨⟨by decide, by decide, by decide, by decide, by decide⟩,
    slot_map_round_trip (slot_map.init Nat) 1024 5 [.add 7, .remove ⟨0, 9⟩]
      (by decide) (by decide) (by decide) (by decide) (by decide)⟩

/-- C2 (amended): generational safety on index reuse.  From any well-formed
state, let h1 = add(v1) be an admissible add whose generation has the dead flag
clear.  remove(h1) succeeds, the next add(v2) reuses h1's index, its generation
is exactly h1.generation + 1, find(h1) is absent and find(h2) yields v2. -/
theorem generational_safety (m : slot_map T) (P : Nat) (v1 v2 : T)
    (hwf : m.WF P) (hok0 : m.opOK (.add v1) = true)
    (hsat : (m.add P v1).1.version &&& DEAD_BIT = 0) :
    ∃ m2, ((m.add P v1).2).remove P (m.add P v1).1 = .ok m2 ∧
      (m2.add P v2).1.index = (m.add P v1).1.index ∧
      (m2.add P v2).1.version = (m.add P v1).1.version + 1 ∧
      ((m2.add P v2).2).find P (m.add P v1).1 = none ∧
      ((m2.add P v2).2).find P (m2.add P v2).1 = some (some v2) := by
  have hlive := add_establishes_live m P v1 hwf hok0 hsat
  obtain ⟨⟨hsync, hvfl, hle, hnd, hfree⟩, hhi, hhv, hhlt, hhm⟩ := hlive
  refine ⟨_, remove_ok_eq _ P _ hhi hhv, ?_⟩
  set m1 := (m.add P v1).2 with hm1
  set h1 := (m.add P v1).1 with hh1
  -- the state after the successful remove, as produced by remove_ok_eq
  set m2 : slot_map T :=
    { storage_arena :=
        { num_pages := m1.storage_arena.num_pages,
          freelist := ⟨m1.storage_arena.freelist.objects ++ [h1.index]⟩,
          next_global_index := m1.storage_arena.next_global_index,
          mem := fun j => if j = h1.index then none else m1.storage_arena.mem j },
      versions_arena :=
        { num_pages := m1.versions_arena.num_pages,
          freelist := m1.versions_arena.freelist,
          next_global_index := m1.versions_arena.next_global_index,
          mem := fun j => if j = h1.index then some (h1.version ||| DEAD_BIT)
                          else m1.versions_arena.mem j },
      current_size := m1.current_size - 1 } with hm2
  have hr2 : m2.readV P h1.index = 2 ^ 31 + h1.version := by
    unfold slot_map.readV
    simp only [get_address_eq, hm2]
    simp [or_dead_eq_add hhlt]
  have hadd2 := add_reuse_eq m2 P v2 m1.storage_arena.freelist.objects h1.index
    (by simp [hm2, hsync]) (by simp [hm2]) (by omega)
  rw [hadd2]
  have hmask : (m2.readV P h1.index &&& VERSION_MASK) + 1 = h1.version + 1 := by
    rw [hr2, add_dead_and_mask hhlt]
  refine ⟨rfl, by simpa using hmask, ?_, ?_⟩
  · apply find_invalid
    right
    unfold slot_map.readV
    simp only [get_address_eq]
    simp only [ite_true, if_pos rfl, Option.getD_some]
    rw [or_dead_eq_add hhlt, add_dead_and_mask hhlt]
    omega
  · have hnext2 : m2.storage_arena.next_global_index
        = m1.storage_arena.next_global_index := rfl
    unfold slot_map.find
    rw [if_neg (by
      push_neg
      refine ⟨by simp only [typed_memory_arena.size]; omega, ?_⟩
      unfold slot_map.readV
      simp only [get_address_eq]
      simp)]
    simp only [get_address_eq]
    simp


/-- witness for generational_safety: on an empty map, add 3, remove it, add 4:
handle (0,1) is followed by handle (0,2). -/
theorem generational_safety_witness :
    ((slot_map.init Nat).WF 1024 ∧
     (slot_map.init Nat).opOK (.add 3) = true ∧
     ((slot_map.init Nat).add 1024 3).1.version &&& DEAD_BIT = 0) ∧
    ∃ m2, (((slot_map.init Nat).add 1024 3).2).remove 1024
        ((slot_map.init Nat).add 1024 3).1 = .ok m2 ∧
      (m2.add 1024 4).1.index = ((slot_map.init Nat).add 1024 3).1.index ∧
      (m2.add 1024 4).1.version
        = ((slot_map.init Nat).add 1024 3).1.version + 1 ∧
      ((m2.add 1024 4).2).find 1024 ((slot_map.init Nat).add 1024 3).1 = none ∧
      ((m2.add 1024 4).2).find 1024 (m2.add 1024 4).1 = some (some 4) :=
  ⟨⟨by decide, by decide, by decide⟩,
    generational_safety (slot_map.init Nat) 1024 3 4 (by decide) (by decide)
      (by decide)⟩

/-- states reachable from a default-constructed slot_map through the public
mutating operations add and (successful) remove. -/
inductive slot_map.Reach (P : Nat) : slot_map T → Prop where
  | init : slot_map.Reach P (slot_map.init T)
  | add (m : slot_map T) (v : T) :
      slot_map.Reach P m → slot_map.Reach P ((m.add P v).2)
  | remove (m m2 : slot_map T) (h : slot_map_handle) :
      slot_map.Reach P m → m.remove P h = .ok m2 → slot_map.Reach P m2

/-- the slot map produced from a default-constructed slot_map Nat by k ≥ 1
add-remove cycles on slot 0 (page size 1024): slot 0 is dead and its generation
entry holds k together with the dead flag, i.e. 2^31 + k. -/
def spinState (k : Nat) : slot_map Nat :=
  { storage_arena :=
      { num_pages := 1, freelist := ⟨[0]⟩, next_global_index := 1,
        mem := fun _ => none },
    versions_arena :=
      { num_pages := 1, freelist := ⟨[]⟩, next_global_index := 1,
        mem := fun j => if j = 0 then some (2 ^ 31 + k) else none },
    current_size := 0 }

/-- the first add-remove cycle on an empty slot map lands in spinState 1. -/
theorem spin_base :
    ((slot_map.init Nat).add 1024 0).2.remove 1024 ⟨0, 1⟩ = .ok (spinState 1) := by
  rw [add_fresh_eq (slot_map.init Nat) 1024 0 rfl rfl rfl (by decide)]
  rw [remove_ok_eq _ 1024 ⟨0, 1⟩ (by norm_num)
    (by unfold slot_map.readV; simp [slot_map.init, typed_memory_arena.init])]
  congr 1
  unfold spinState slot_map.init typed_memory_arena.init
  congr 1
  · congr 1
    funext j
    by_cases hj : j = 0 <;> simp [hj]
  · congr 1
    funext j
    by_cases hj : j = 0 <;> simp [hj, or_dead_eq_add (by norm_num : (1:Nat) < 2 ^ 31)]

/-- one further add-remove cycle advances spinState k to spinState (k+1). -/
theorem spin_step (k : Nat) (hk : k + 1 < 2 ^ 31) :
    ((spinState k).add 1024 37).2.remove 1024 ⟨0, k + 1⟩
      = .ok (spinState (k + 1)) := by
  have hrv : (spinState k).readV 1024 0 = 2 ^ 31 + k := by
    unfold slot_map.readV spinState
    simp
  have hmask : ((spinState k).readV 1024 0 &&& VERSION_MASK) + 1 = k + 1 := by
    rw [hrv, add_dead_and_mask (by omega)]
  rw [add_reuse_eq (spinState k) 1024 37 [] 0 rfl rfl (by norm_num)]
  rw [remove_ok_eq _ 1024 ⟨0, k + 1⟩ (by unfold spinState; norm_num)
    (by unfold slot_map.readV at hmask ⊢; simp only [get_address_eq] at hmask ⊢; simpa using hmask)]
  congr 1
  unfold spinState
  congr 1
  · congr 1
    funext j
    by_cases hj : j = 0 <;> simp [hj]
  · congr 1
    funext j
    by_cases hj : j = 0 <;>
      simp [hj, hmask, or_dead_eq_add (by omega : k + 1 < 2 ^ 31)]

/-- every spinState k with 1 ≤ k < 2^31 is reachable. -/
theorem spin_reach (k : Nat) (hk1 : 1 ≤ k) (hk : k < 2 ^ 31) :
    slot_map.Reach 1024 (spinState k) := by
  induction k with
  | zero => omega
  | succ k ih =>
    rcases Nat.eq_or_lt_of_le hk1 with h1 | h1
    · rw [← h1]
      exact slot_map.Reach.remove _ _ ⟨0, 1⟩
        (slot_map.Reach.add _ 0 slot_map.Reach.init) spin_base
    · exact slot_map.Reach.remove _ _ ⟨0, k + 1⟩
        (slot_map.Reach.add _ 37 (ih (by omega) (by omega)))
        (spin_step k (by omega))


/-- counterexample to C1 as stated: spinState (2^31 - 1) is reachable (by 2^31 - 1
add-remove cycles on slot 0) and well-formed; there h = add(5) returns the slot
with saturated generation 2^31, whose dead flag is set; remove(h) succeeds, yet
find(h) still returns a non-null pointer afterwards, because or-ing the dead bit
into the saturated generation does not change it. -/
theorem slot_map_round_trip_counterexample :
    slot_map.Reach 1024 (spinState (2 ^ 31 - 1)) ∧
    (spinState (2 ^ 31 - 1)).WF 1024 ∧
    exceptOk (((spinState (2 ^ 31 - 1)).add 1024 5).2.remove 1024
      ((spinState (2 ^ 31 - 1)).add 1024 5).1) = true ∧
    ¬ (((((spinState (2 ^ 31 - 1)).add 1024 5).2.remove 1024
          ((spinState (2 ^ 31 - 1)).add 1024 5).1).toOption.getD
            ((spinState (2 ^ 31 - 1)).add 1024 5).2).find 1024
        ((spinState (2 ^ 31 - 1)).add 1024 5).1 = none) :=
  ⟨spin_reach (2 ^ 31 - 1) (by norm_num) (by norm_num),
    by decide, by decide, by decide⟩


/-- counterexample to C2 as stated: in the reachable, well-formed state
spinState (2^31 - 1), h1 = add(5) carries the saturated generation 2^31;
remove(h1) succeeds and h2 = add(7) reuses index 0 (so the claim's index-reuse
condition holds), but h2's generation is 1, not h1.generation + 1 = 2^31 + 1:
masking the stored generation wrapped it to 0 before the increment. -/
theorem generational_safety_counterexample :
    slot_map.Reach 1024 (spinState (2 ^ 31 - 1)) ∧
    (spinState (2 ^ 31 - 1)).WF 1024 ∧
    exceptOk (((spinState (2 ^ 31 - 1)).add 1024 5).2.remove 1024
      ((spinState (2 ^ 31 - 1)).add 1024 5).1) = true ∧
    (((((spinState (2 ^ 31 - 1)).add 1024 5).2.remove 1024
          ((spinState (2 ^ 31 - 1)).add 1024 5).1).toOption.getD
            ((spinState (2 ^ 31 - 1)).add 1024 5).2).add 1024 7).1.index
      = ((spinState (2 ^ 31 - 1)).add 1024 5).1.index ∧
    ¬ ((((((spinState (2 ^ 31 - 1)).add 1024 5).2.remove 1024
          ((spinState (2 ^ 31 - 1)).add 1024 5).1).toOption.getD
            ((spinState (2 ^ 31 - 1)).add 1024 5).2).add 1024 7).1.version
        = ((spinState (2 ^ 31 - 1)).add 1024 5).1.version + 1) :=
  ⟨spin_reach (2 ^ 31 - 1) (by norm_num) (by norm_num),
    by decide, by decide, by decide, by decide⟩

/-- the slot map reached by the public calls add(10); add(20); remove((0,1)):
slot 0 is dead (generation 1 with the dead flag), slot 1 live. -/
def double_remove_state1 : slot_map Nat :=
  ((((slot_map.init Nat).add 1024 10).2.add 1024 20).2.remove 1024
    ⟨0, 1⟩).toOption.getD (((slot_map.init Nat).add 1024 10).2.add 1024 20).2

/-- removing the forged handle (0, 2^31 + 1), whose version carries the dead
flag, from double_remove_state1. -/
def double_remove_res : Except apus_error (slot_map Nat) :=
  double_remove_state1.remove 1024 ⟨0, 2 ^ 31 + 1⟩

/-- the state after the forged remove is accepted. -/
def double_remove_state2 : slot_map Nat :=
  double_remove_res.toOption.getD double_remove_state1

/-- C8 evaluated at the failing input add(10); add(20); remove((0,1));
remove((0, 2^31 + 1)): the second remove presents a handle whose version equals
the dead generation entry of the already-removed slot 0, so validation passes
and the slot is freed twice while the active counter drops to 0.  Afterwards
size() returns 0 but a full iteration pass yields 1 element (live slot 1),
contradicting the iteration-consistency invariant; the spec (and remove's own
documentation) instead require a remove of an already-dead slot to be rejected. -/
theorem slot_map_iteration_size_mismatch :
    exceptOk (((((slot_map.init Nat).add 1024 10).2.add 1024 20).2).remove 1024
      ⟨0, 1⟩) = true ∧
    exceptOk double_remove_res = true ∧
    double_remove_state2.size = 0 ∧
    (double_remove_state2.iterate 1024).length = 1 :=
  ⟨by decide, by decide, by decide, by decide⟩

end apus
